import Mathlib

/-!
Verification of the artifact-emission stage of the Fe compiler driver
(`src/main.rs`): target parsing, output-directory guard checks, and the
per-artifact write protocol, shallowly embedded over an explicit
filesystem model.
-/

set_option autoImplicit false

namespace Fe

/-- Filesystem paths, modelled as lists of path components. -/
abbrev Path := List String

/-- The compilation targets, from the `arg_enum!` block in `src/main.rs`
(variants `Abi`, `Ast`, `Bytecode`, `Tokens`, `Yul`). -/
inductive CompilationTarget where
  | Abi
  | Ast
  | Bytecode
  | Tokens
  | Yul
deriving DecidableEq, Repr

/-- The distinct error cases the driver returns as strings.
`destinationIsFile` is the "A file exists at path ..." error,
`destinationNotEmpty` is the "Directory ... is not empty" error from
`verify_nonexistent_or_empty`, and `ioFailure` stands for a string produced
by `ioerr_to_string` from an underlying I/O error at the given path. -/
inductive EmitError where
  | destinationIsFile (dir : Path)
  | destinationNotEmpty (dir : Path)
  | ioFailure (path : Path)
deriving DecidableEq, Repr

/-- Modelled from the spec: `fe_compiler::types::CompiledContract` is not under
`src/`. Per the spec it carries a JSON ABI body, a Yul intermediate
representation (abstracted to its textual form), and an optional binary
payload, present only when the optional solc backend capability was compiled
in. -/
structure CompiledContract where
  json_abi : String
  yul : String
  bytecode : Option String
deriving DecidableEq, Repr

/-- Modelled from the spec: `fe_compiler::types::CompiledModule` is not under
`src/`. It holds the module's syntax and token-stream representations and a
mapping from contract name to compiled contract; the `HashMap` (whose drain
order is unspecified) is modelled as an association list iterated in list
order. -/
structure CompiledModule where
  fe_ast : String
  fe_tokens : String
  contracts : List (String × CompiledContract)
deriving DecidableEq, Repr

/-- The filesystem state: regular files as an association list from path to
content (the first binding for a path is its current content), plus the set of
existing directories. -/
structure FS where
  files : List (Path × String)
  dirs : List Path
deriving DecidableEq, Repr

/-- The completely fresh filesystem. -/
def FS.empty : FS := ⟨[], []⟩

/-- `Path::is_file`: a regular file exists at `p`. -/
def FS.isFile (fs : FS) (p : Path) : Bool := (fs.files.lookup p).isSome

/-- A directory exists at `p`. -/
def FS.isDir (fs : FS) (p : Path) : Bool := fs.dirs.contains p

/-- `Path::exists`: something exists at `p`. -/
def FS.pathExists (fs : FS) (p : Path) : Bool := fs.isFile p || fs.isDir p

/-- `p` is a proper ancestor directory of `q`: `q` lies strictly inside `p`. -/
def strictAncestor (p q : Path) : Bool :=
  p.isPrefixOf q && decide (p.length < q.length)

/-- `read_dir(p).next().is_some()`: directory `p` holds at least one entry
(some file or directory lies strictly inside it). -/
def FS.dirNonempty (fs : FS) (p : Path) : Bool :=
  fs.files.any (fun f => strictAncestor p f.1) || fs.dirs.any (fun d => strictAncestor p d)

/-- `verify_nonexistent_or_empty` (src/main.rs lines 184-193): succeed when the
directory does not exist or its listing yields no entry, otherwise the
"Directory ... is not empty. Use --overwrite to overwrite." error. -/
def verify_nonexistent_or_empty (fs : FS) (dir : Path) : Option EmitError :=
  if !(fs.pathExists dir) || !(fs.dirNonempty dir) then none
  else some (.destinationNotEmpty dir)

/-- All nonempty prefixes of a path, shortest first. -/
def pathPrefixes : Path → List Path
  | [] => []
  | c :: rest => [c] :: (pathPrefixes rest).map (fun p => c :: p)

/-- Record a directory as existing (idempotent). -/
def FS.addDir (fs : FS) (p : Path) : FS :=
  if fs.dirs.contains p then fs else { fs with dirs := p :: fs.dirs }

/-- `fs::create_dir_all`: create the directory and all missing ancestors; it
is not an error if they already exist. An underlying I/O failure (permission,
collision with an existing file, ...) is modelled by the oracle `ioerr` and is
mapped through `ioerr_to_string` in the source. On failure the filesystem
state is returned unchanged alongside the error. -/
def create_dir_all (ioerr : Path → Bool) (fs : FS) (p : Path) : FS × Option EmitError :=
  if ioerr p then (fs, some (.ioFailure p))
  else ((pathPrefixes p).foldl FS.addDir fs, none)

/-- `write_output` (src/main.rs lines 168-178): open with
write/create/truncate and write the whole body. An underlying I/O failure is
modelled by the oracle `ioerr`; on success the new binding shadows any
previous content at the path. -/
def write_output (ioerr : Path → Bool) (fs : FS) (path : Path) (content : String) :
    FS × Option EmitError :=
  if ioerr path then (fs, some (.ioFailure path))
  else ({ fs with files := (path, content) :: fs.files }, none)

/-- Sequencing that mirrors Rust's `?` operator while keeping the filesystem
state reached at the point of failure. -/
def andThen (r : FS × Option EmitError) (k : FS → FS × Option EmitError) :
    FS × Option EmitError :=
  match r with
  | (fs, none) => k fs
  | (fs, some e) => (fs, some e)

/-- The per-contract body of the loop in `write_compiled_module`
(src/main.rs lines 141-163): create `<outdir>/<name>/`, then conditionally
write the ABI, the pretty-printed Yul, and — only when the `solc-backend`
feature was compiled in (modelled by `solcBackend`) and the contract carries a
bytecode payload — the `.bin` file. `pp` abstracts `pretty_curly_print`
(its source, src/_utils.rs, is not under `src/`). -/
def emitContract (ioerr : Path → Bool) (pp : String → Nat → String) (solcBackend : Bool)
    (targets : List CompilationTarget) (output_dir : Path)
    (fs : FS) (name : String) (contract : CompiledContract) : FS × Option EmitError :=
  andThen (create_dir_all ioerr fs (output_dir ++ [name])) fun fs =>
  andThen (if targets.contains .Abi then
             write_output ioerr fs (output_dir ++ [name, name ++ "_abi.json"]) contract.json_abi
           else (fs, none)) fun fs =>
  andThen (if targets.contains .Yul then
             write_output ioerr fs (output_dir ++ [name, name ++ "_ir.yul"]) (pp contract.yul 4)
           else (fs, none)) fun fs =>
  if solcBackend && targets.contains .Bytecode then
    match contract.bytecode with
    | some bc => write_output ioerr fs (output_dir ++ [name, name ++ ".bin"]) bc
    | none => (fs, none)
  else (fs, none)

/-- The contract loop of `write_compiled_module`, draining the contract
mapping in order. -/
def emitContracts (ioerr : Path → Bool) (pp : String → Nat → String) (solcBackend : Bool)
    (targets : List CompilationTarget) (output_dir : Path) :
    FS → List (String × CompiledContract) → FS × Option EmitError
  | fs, [] => (fs, none)
  | fs, (name, contract) :: rest =>
      andThen (emitContract ioerr pp solcBackend targets output_dir fs name contract) fun fs =>
      emitContracts ioerr pp solcBackend targets output_dir fs rest

/-- The emission pipeline after the guard checks (src/main.rs lines 131-165):
create the output directory, write `module.ast` / `module.tokens` when
requested, then run the contract loop. -/
def emitArtifacts (ioerr : Path → Bool) (pp : String → Nat → String) (solcBackend : Bool)
    (module : CompiledModule) (targets : List CompilationTarget)
    (output_dir : Path) (fs : FS) : FS × Option EmitError :=
  andThen (create_dir_all ioerr fs output_dir) fun fs =>
  andThen (if targets.contains .Ast then
             write_output ioerr fs (output_dir ++ ["module.ast"]) module.fe_ast
           else (fs, none)) fun fs =>
  andThen (if targets.contains .Tokens then
             write_output ioerr fs (output_dir ++ ["module.tokens"]) module.fe_tokens
           else (fs, none)) fun fs =>
  emitContracts ioerr pp solcBackend targets output_dir fs module.contracts

/-- `write_compiled_module` (src/main.rs lines 113-166): refuse if a regular
file sits at the output path; unless `overwrite` is set, require the
destination to be nonexistent or empty; then emit the requested artifacts. -/
def write_compiled_module (ioerr : Path → Bool) (pp : String → Nat → String)
    (solcBackend : Bool) (module : CompiledModule) (targets : List CompilationTarget)
    (output_dir : Path) (overwrite : Bool) (fs : FS) : FS × Option EmitError :=
  if fs.isFile output_dir then (fs, some (.destinationIsFile output_dir))
  else if !overwrite then
    match verify_nonexistent_or_empty fs output_dir with
    | some e => (fs, some e)
    | none => emitArtifacts ioerr pp solcBackend module targets output_dir fs
  else emitArtifacts ioerr pp solcBackend module targets output_dir fs

/-- ASCII lowercase folding of one code point. -/
def asciiLower (n : Nat) : Nat := if 65 ≤ n ∧ n ≤ 90 then n + 32 else n

/-- ASCII-case-insensitive string comparison (Rust `eq_ignore_ascii_case`),
as used by the `FromStr` implementation that `arg_enum!` generates: the
strings are equal after ASCII-lowercasing each code point. -/
def eqIgnoreAsciiCase (a b : String) : Bool :=
  a.data.map (fun c => asciiLower c.toNat) == b.data.map (fun c => asciiLower c.toNat)

/-- The `FromStr` parser generated by `arg_enum!` for `CompilationTarget`:
case-insensitive match against the variant names; an unknown token is returned
as the error. -/
def target_from_str (s : String) : Except String CompilationTarget :=
  if eqIgnoreAsciiCase s "Abi" then .ok .Abi
  else if eqIgnoreAsciiCase s "Ast" then .ok .Ast
  else if eqIgnoreAsciiCase s "Bytecode" then .ok .Bytecode
  else if eqIgnoreAsciiCase s "Tokens" then .ok .Tokens
  else if eqIgnoreAsciiCase s "Yul" then .ok .Yul
  else .error s

/-- The `values_t!` macro applied to the `--emit` values: parse each token in
order, failing on the first unknown token, keeping duplicates. -/
def parseTargets : List String → Except String (List CompilationTarget)
  | [] => .ok []
  | s :: rest =>
    match target_from_str s with
    | .error e => .error e
    | .ok t =>
      match parseTargets rest with
      | .error e => .error e
      | .ok ts => .ok (t :: ts)

/-- The slice of `clap::ArgMatches` state that `main` (src/main.rs lines
76-81) reads: the two positional/valued arguments, the presence of the two
boolean flags, and the comma-split `--emit` values. -/
structure ArgMatches where
  input : String
  output_dir : String
  overwrite_present : Bool
  optimize_present : Bool
  emit_values : List String
deriving DecidableEq, Repr

/-- The values `main` extracts and passes on to `compile_and_write`. -/
structure ParsedArgs where
  input : String
  output_dir : String
  overwrite : Bool
  optimize : Bool
  targets : List CompilationTarget
deriving DecidableEq, Repr

/-- Argument extraction in `main` (src/main.rs lines 76-81). Note that line
79 reads `matches.is_present("overwrite")` for the optimize binding. -/
def parseArgs (m : ArgMatches) : Except String ParsedArgs :=
  match parseTargets m.emit_values with
  | .error e => .error e
  | .ok targets =>
    .ok { input := m.input
          output_dir := m.output_dir
          overwrite := m.overwrite_present
          optimize := m.overwrite_present
          targets := targets }

/-- A single filesystem operation performed by the emission pipeline. -/
inductive Op where
  | mkdir (p : Path)
  | fwrite (p : Path) (content : String)
deriving DecidableEq, Repr

/-- The path an operation touches. -/
def Op.path : Op → Path
  | .mkdir p => p
  | .fwrite p _ => p

/-- The (path, content) pair of a write operation, `none` for a mkdir. -/
def Op.write? : Op → Option (Path × String)
  | .mkdir _ => none
  | .fwrite p c => some (p, c)

/-- Execute one operation. -/
def runOp (ioerr : Path → Bool) (fs : FS) : Op → FS × Option EmitError
  | .mkdir p => create_dir_all ioerr fs p
  | .fwrite p c => write_output ioerr fs p c

/-- Execute a sequence of operations, aborting at the first failure. -/
def runOps (ioerr : Path → Bool) : FS → List Op → FS × Option EmitError
  | fs, [] => (fs, none)
  | fs, op :: ops => andThen (runOp ioerr fs op) fun fs => runOps ioerr fs ops

/-- The writes of an operation sequence, in order. -/
def opsWrites (ops : List Op) : List (Path × String) := ops.filterMap Op.write?

/-- The state change of a successful operation. -/
def applyOp (fs : FS) : Op → FS
  | .mkdir p => (pathPrefixes p).foldl FS.addDir fs
  | .fwrite p c => { fs with files := (p, c) :: fs.files }

/-- The operations the contract-loop body performs for one contract. -/
def contractPlan (pp : String → Nat → String) (solcBackend : Bool)
    (targets : List CompilationTarget) (output_dir : Path)
    (name : String) (contract : CompiledContract) : List Op :=
  Op.mkdir (output_dir ++ [name]) ::
  ((if targets.contains .Abi then
      [Op.fwrite (output_dir ++ [name, name ++ "_abi.json"]) contract.json_abi]
    else []) ++
   ((if targets.contains .Yul then
       [Op.fwrite (output_dir ++ [name, name ++ "_ir.yul"]) (pp contract.yul 4)]
     else []) ++
    (if solcBackend && targets.contains .Bytecode then
       match contract.bytecode with
       | some bc => [Op.fwrite (output_dir ++ [name, name ++ ".bin"]) bc]
       | none => []
     else [])))

/-- The operations the whole emission pipeline performs, in order. -/
def emissionPlan (pp : String → Nat → String) (solcBackend : Bool)
    (module : CompiledModule) (targets : List CompilationTarget)
    (output_dir : Path) : List Op :=
  Op.mkdir output_dir ::
  ((if targets.contains .Ast then
      [Op.fwrite (output_dir ++ ["module.ast"]) module.fe_ast]
    else []) ++
   ((if targets.contains .Tokens then
       [Op.fwrite (output_dir ++ ["module.tokens"]) module.fe_tokens]
     else []) ++
    module.contracts.flatMap
      (fun nc => contractPlan pp solcBackend targets output_dir nc.1 nc.2)))

/-- The artifacts selected by membership for one contract: ABI body, pretty
printed Yul, and — when the backend capability is compiled in and the payload
is present — the bytecode. -/
def contractArtifacts (pp : String → Nat → String) (solcBackend : Bool)
    (targets : List CompilationTarget) (output_dir : Path)
    (name : String) (contract : CompiledContract) : List (Path × String) :=
  (if targets.contains .Abi then
     [(output_dir ++ [name, name ++ "_abi.json"], contract.json_abi)]
   else []) ++
  ((if targets.contains .Yul then
      [(output_dir ++ [name, name ++ "_ir.yul"], pp contract.yul 4)]
    else []) ++
   (if solcBackend && targets.contains .Bytecode then
      match contract.bytecode with
      | some bc => [(output_dir ++ [name, name ++ ".bin"], bc)]
      | none => []
    else []))

/-- All artifacts selected by membership in the target set: module-level
files, then per-contract files. -/
def selectedArtifacts (pp : String → Nat → String) (solcBackend : Bool)
    (module : CompiledModule) (targets : List CompilationTarget)
    (output_dir : Path) : List (Path × String) :=
  (if targets.contains .Ast then [(output_dir ++ ["module.ast"], module.fe_ast)] else []) ++
  ((if targets.contains .Tokens then
      [(output_dir ++ ["module.tokens"], module.fe_tokens)]
    else []) ++
   module.contracts.flatMap
     (fun nc => contractArtifacts pp solcBackend targets output_dir nc.1 nc.2))

theorem andThen_none_right (r : FS × Option EmitError) :
    andThen r (fun fs => (fs, none)) = r := by
  obtain ⟨fs, e⟩ := r
  cases e <;> rfl

theorem andThen_assoc (r : FS × Option EmitError) (k k' : FS → FS × Option EmitError) :
    andThen (andThen r k) k' = andThen r (fun fs => andThen (k fs) k') := by
  obtain ⟨fs, e⟩ := r
  cases e <;> rfl

theorem runOps_append (ioerr : Path → Bool) (fs : FS) (l₁ l₂ : List Op) :
    runOps ioerr fs (l₁ ++ l₂)
      = andThen (runOps ioerr fs l₁) (fun fs => runOps ioerr fs l₂) := by
  induction l₁ generalizing fs with
  | nil =>
    simp [runOps, andThen]
  | cons op l₁ ih =>
    simp only [List.cons_append, runOps, andThen_assoc]
    obtain ⟨fs', e⟩ := runOp ioerr fs op
    cases e <;> simp [andThen, ih]

theorem runOp_of_fail (ioerr : Path → Bool) (fs : FS) (op : Op)
    (h : ioerr op.path = true) :
    runOp ioerr fs op = (fs, some (.ioFailure op.path)) := by
  cases op <;> simp [runOp, create_dir_all, write_output, Op.path] at h ⊢ <;> simp [h]

theorem runOp_of_ok (ioerr : Path → Bool) (fs : FS) (op : Op)
    (h : ioerr op.path = false) :
    runOp ioerr fs op = (applyOp fs op, none) := by
  cases op <;> simp [runOp, create_dir_all, write_output, Op.path, applyOp] at h ⊢ <;> simp [h]

theorem files_addDir (fs : FS) (p : Path) : (fs.addDir p).files = fs.files := by
  unfold FS.addDir
  split <;> rfl

theorem files_foldl_addDir (l : List Path) (fs : FS) :
    (l.foldl FS.addDir fs).files = fs.files := by
  induction l generalizing fs with
  | nil => rfl
  | cons a l ih => simp [List.foldl_cons, ih, files_addDir]

theorem runOps_snd_none_iff (ioerr : Path → Bool) (fs : FS) (ops : List Op) :
    (runOps ioerr fs ops).2 = none ↔ ∀ op ∈ ops, ioerr op.path = false := by
  induction ops generalizing fs with
  | nil => simp [runOps]
  | cons op ops ih =>
    cases h : ioerr op.path with
    | true =>
      simp [runOps, runOp_of_fail ioerr fs op h, andThen, h]
    | false =>
      simp [runOps, runOp_of_ok ioerr fs op h, andThen, h, ih]

theorem runOps_files_of_none (ioerr : Path → Bool) (fs : FS) (ops : List Op)
    (h : (runOps ioerr fs ops).2 = none) :
    (runOps ioerr fs ops).1.files = (opsWrites ops).reverse ++ fs.files := by
  induction ops generalizing fs with
  | nil => simp [runOps, opsWrites]
  | cons op ops ih =>
    cases hop : ioerr op.path with
    | true =>
      rw [runOps, runOp_of_fail ioerr fs op hop] at h
      simp [andThen] at h
    | false =>
      rw [runOps, runOp_of_ok ioerr fs op hop] at h ⊢
      simp only [andThen] at h ⊢
      rw [ih (applyOp fs op) h]
      cases op with
      | mkdir p => simp [opsWrites, applyOp, Op.write?, files_foldl_addDir]
      | fwrite p c => simp [opsWrites, applyOp, Op.write?]

theorem runOps_lookup_frame (ioerr : Path → Bool) (fs : FS) (ops : List Op) (q : Path)
    (h : ∀ pc ∈ opsWrites ops, pc.1 ≠ q) :
    (runOps ioerr fs ops).1.files.lookup q = fs.files.lookup q := by
  induction ops generalizing fs with
  | nil => rfl
  | cons op ops ih =>
    cases hop : ioerr op.path with
    | true =>
      rw [runOps, runOp_of_fail ioerr fs op hop]
      simp [andThen]
    | false =>
      rw [runOps, runOp_of_ok ioerr fs op hop]
      simp only [andThen]
      cases op with
      | mkdir p =>
        rw [ih (applyOp fs (.mkdir p)) (fun pc hpc => h pc (by simpa [opsWrites, Op.write?] using hpc))]
        simp [applyOp, files_foldl_addDir]
      | fwrite p c =>
        have hpq : p ≠ q := h (p, c) (by simp [opsWrites, Op.write?])
        rw [ih (applyOp fs (.fwrite p c)) (fun pc hpc => h pc (by simp [opsWrites, Op.write?] at hpc ⊢; exact Or.inr hpc))]
        have hb : (q == p) = false := beq_eq_false_iff_ne.2 (Ne.symm hpq)
        simp [applyOp, List.lookup, hb]

theorem runOps_first_fail (ioerr : Path → Bool) (fs : FS) (pre post : List Op) (op₀ : Op)
    (hpre : ∀ op ∈ pre, ioerr op.path = false) (hfail : ioerr op₀.path = true) :
    runOps ioerr fs (pre ++ op₀ :: post)
      = ((runOps ioerr fs pre).1, some (.ioFailure op₀.path)) := by
  induction pre generalizing fs with
  | nil =>
    simp [runOps, runOp_of_fail ioerr fs op₀ hfail, andThen]
  | cons op pre ih =>
    have hok : ioerr op.path = false := hpre op (by simp)
    simp only [List.cons_append, runOps, runOp_of_ok ioerr fs op hok, andThen]
    exact ih (applyOp fs op) (fun o ho => hpre o (by simp [ho]))

theorem opsWrites_flatMap {α : Type} (f : α → List Op) (l : List α) :
    opsWrites (l.flatMap f) = l.flatMap (fun a => opsWrites (f a)) := by
  induction l with
  | nil => rfl
  | cons a l ih =>
    simp only [opsWrites] at ih ⊢
    simp [List.flatMap_cons, List.filterMap_append, ih]

theorem filterMap_write_ite (b : Prop) [Decidable b] (p : Path) (c : String) :
    List.filterMap Op.write? (if b then [Op.fwrite p c] else [])
      = if b then [(p, c)] else [] := by
  split <;> rfl

theorem filterMap_write_ite_match (b : Prop) [Decidable b] (p : Path) (o : Option String) :
    List.filterMap Op.write?
        (if b then
          (match o with
           | some bc => [Op.fwrite p bc]
           | none => [])
         else [])
      = (if b then
          (match o with
           | some bc => [(p, bc)]
           | none => [])
         else []) := by
  split
  · cases o <;> rfl
  · rfl

theorem opsWrites_contractPlan (pp : String → Nat → String) (solcBackend : Bool)
    (targets : List CompilationTarget) (output_dir : Path)
    (name : String) (contract : CompiledContract) :
    opsWrites (contractPlan pp solcBackend targets output_dir name contract)
      = contractArtifacts pp solcBackend targets output_dir name contract := by
  simp only [opsWrites, contractPlan, contractArtifacts, List.filterMap_cons, Op.write?,
    List.filterMap_append, filterMap_write_ite, filterMap_write_ite_match]

theorem opsWrites_emissionPlan (pp : String → Nat → String) (solcBackend : Bool)
    (module : CompiledModule) (targets : List CompilationTarget) (output_dir : Path) :
    opsWrites (emissionPlan pp solcBackend module targets output_dir)
      = selectedArtifacts pp solcBackend module targets output_dir := by
  have hcp : (fun nc : String × CompiledContract =>
        opsWrites (contractPlan pp solcBackend targets output_dir nc.1 nc.2))
      = (fun nc : String × CompiledContract =>
        contractArtifacts pp solcBackend targets output_dir nc.1 nc.2) :=
    funext fun nc => opsWrites_contractPlan pp solcBackend targets output_dir nc.1 nc.2
  have hfm := opsWrites_flatMap
    (fun nc : String × CompiledContract =>
      contractPlan pp solcBackend targets output_dir nc.1 nc.2) module.contracts
  rw [hcp] at hfm
  simp only [opsWrites, emissionPlan, selectedArtifacts, List.filterMap_cons, Op.write?,
    List.filterMap_append, filterMap_write_ite]
  simp only [opsWrites] at hfm
  rw [hfm]

theorem runOps_ite_singleton (ioerr : Path → Bool) (b : Prop) [Decidable b]
    (op : Op) (ops : List Op) (fs : FS) :
    runOps ioerr fs ((if b then [op] else []) ++ ops)
      = andThen (if b then runOp ioerr fs op else (fs, none)) fun fs => runOps ioerr fs ops := by
  split
  · simp [runOps]
  · simp [runOps, andThen]

theorem runOps_ite_match_nil (ioerr : Path → Bool) (b : Prop) [Decidable b]
    (p : Path) (o : Option String) (fs : FS) :
    runOps ioerr fs
        (if b then
          (match o with
           | some bc => [Op.fwrite p bc]
           | none => [])
         else [])
      = (if b then
          (match o with
           | some bc => write_output ioerr fs p bc
           | none => (fs, none))
         else (fs, none)) := by
  split
  · cases o <;> simp [runOps, andThen_none_right, runOp]
  · rfl

theorem emitContract_eq_runOps (ioerr : Path → Bool) (pp : String → Nat → String)
    (solcBackend : Bool) (targets : List CompilationTarget) (output_dir : Path)
    (fs : FS) (name : String) (contract : CompiledContract) :
    emitContract ioerr pp solcBackend targets output_dir fs name contract
      = runOps ioerr fs (contractPlan pp solcBackend targets output_dir name contract) := by
  simp only [emitContract, contractPlan, runOps, runOp, runOps_ite_singleton,
    runOps_ite_match_nil]

theorem emitContracts_eq_runOps (ioerr : Path → Bool) (pp : String → Nat → String)
    (solcBackend : Bool) (targets : List CompilationTarget) (output_dir : Path)
    (cs : List (String × CompiledContract)) (fs : FS) :
    emitContracts ioerr pp solcBackend targets output_dir fs cs
      = runOps ioerr fs
          (cs.flatMap (fun nc => contractPlan pp solcBackend targets output_dir nc.1 nc.2)) := by
  induction cs generalizing fs with
  | nil => rfl
  | cons nc cs ih =>
    obtain ⟨name, contract⟩ := nc
    simp only [emitContracts, List.flatMap_cons, runOps_append, emitContract_eq_runOps, ih]

theorem emitArtifacts_eq_runOps (ioerr : Path → Bool) (pp : String → Nat → String)
    (solcBackend : Bool) (module : CompiledModule) (targets : List CompilationTarget)
    (output_dir : Path) (fs : FS) :
    emitArtifacts ioerr pp solcBackend module targets output_dir fs
      = runOps ioerr fs (emissionPlan pp solcBackend module targets output_dir) := by
  simp only [emitArtifacts, emissionPlan, runOps, runOp, runOps_ite_singleton,
    emitContracts_eq_runOps]

theorem write_compiled_module_not_file (ioerr : Path → Bool) (pp : String → Nat → String)
    (solcBackend : Bool) (module : CompiledModule) (targets : List CompilationTarget)
    (output_dir : Path) (fs : FS) (h : fs.isFile output_dir = false) :
    write_compiled_module ioerr pp solcBackend module targets output_dir true fs
      = emitArtifacts ioerr pp solcBackend module targets output_dir fs := by
  unfold write_compiled_module
  rw [h]
  simp

theorem write_compiled_module_empty (ioerr : Path → Bool) (pp : String → Nat → String)
    (solcBackend : Bool) (module : CompiledModule) (targets : List CompilationTarget)
    (output_dir : Path) (overwrite : Bool) :
    write_compiled_module ioerr pp solcBackend module targets output_dir overwrite FS.empty
      = runOps ioerr FS.empty (emissionPlan pp solcBackend module targets output_dir) := by
  have h1 : FS.empty.isFile output_dir = false := rfl
  have h2 : verify_nonexistent_or_empty FS.empty output_dir = none := by
    simp [verify_nonexistent_or_empty, FS.pathExists, FS.isFile, FS.isDir, FS.empty]
  unfold write_compiled_module
  rw [h1]
  cases overwrite <;> simp [h2, emitArtifacts_eq_runOps]

theorem emit_empty_spec (ioerr : Path → Bool) (pp : String → Nat → String)
    (solcBackend : Bool) (module : CompiledModule) (targets : List CompilationTarget)
    (output_dir : Path) (overwrite : Bool) (hio : ∀ p, ioerr p = false) :
    (write_compiled_module ioerr pp solcBackend module targets output_dir overwrite FS.empty).2
        = none ∧
    (write_compiled_module ioerr pp solcBackend module targets output_dir overwrite FS.empty).1.files
        = (selectedArtifacts pp solcBackend module targets output_dir).reverse := by
  rw [write_compiled_module_empty]
  have hnone : (runOps ioerr FS.empty (emissionPlan pp solcBackend module targets output_dir)).2
      = none :=
    (runOps_snd_none_iff ioerr FS.empty _).2 (fun op _ => hio op.path)
  refine ⟨hnone, ?_⟩
  rw [runOps_files_of_none ioerr FS.empty _ hnone, opsWrites_emissionPlan]
  simp [FS.empty]

theorem lookup_isSome_iff_mem_keys (q : Path) (l : List (Path × String)) :
    (l.lookup q).isSome = true ↔ q ∈ l.map Prod.fst := by
  induction l with
  | nil => simp [List.lookup]
  | cons pc l ih =>
    obtain ⟨p, c⟩ := pc
    by_cases hq : q = p
    · subst hq
      simp [List.lookup]
    · have hb : (q == p) = false := beq_eq_false_iff_ne.2 hq
      simp [List.lookup, hb, ih, hq]

theorem eq_of_mem_nodup_keys (l : List (String × CompiledContract))
    (hnodup : (l.map Prod.fst).Nodup) (a : String) (b₁ b₂ : CompiledContract)
    (h₁ : (a, b₁) ∈ l) (h₂ : (a, b₂) ∈ l) : b₁ = b₂ := by
  induction l with
  | nil => cases h₁
  | cons x l ih =>
    rw [List.map_cons, List.nodup_cons] at hnodup
    rcases List.mem_cons.1 h₁ with rfl | h₁' <;> rcases List.mem_cons.1 h₂ with h₂' | h₂'
    · cases h₂'
      rfl
    · exact absurd (List.mem_map_of_mem Prod.fst h₂') (by simpa using hnodup.1)
    · cases h₂'
      exact absurd (List.mem_map_of_mem Prod.fst h₁') (by simpa using hnodup.1)
    · exact ih hnodup.2 h₁' h₂'

theorem string_append_ne (n a b : String) (h : a.length ≠ b.length) : n ++ a ≠ n ++ b := by
  intro he
  apply h
  have hl := congrArg String.length he
  rw [String.length_append, String.length_append] at hl
  omega

theorem path_one_ne_two (base : Path) (x y z : String) : base ++ [x] ≠ base ++ [y, z] := by
  intro h
  have h2 := List.append_cancel_left h
  simp at h2

theorem path_two_inj (base : Path) (x y x' y' : String)
    (h : base ++ [x, y] = base ++ [x', y']) : x = x' ∧ y = y' := by
  have h2 := List.append_cancel_left h
  simp at h2
  exact h2

theorem mem_ite_singleton {α : Type} {b : Prop} [Decidable b] {x a : α}
    (h : a ∈ (if b then [x] else [])) : a = x ∧ b := by
  split at h
  · simp at h
    exact ⟨h, by assumption⟩
  · simp at h

theorem mem_ite_match_singleton {b : Prop} [Decidable b] {p : Path} {o : Option String} {a : Op}
    (h : a ∈ (if b then
          (match o with
           | some bc => [Op.fwrite p bc]
           | none => [])
         else [])) : ∃ bc, o = some bc ∧ a = Op.fwrite p bc ∧ b := by
  split at h
  · cases hbc : o with
    | none => rw [hbc] at h; simp at h
    | some bc =>
      rw [hbc] at h
      simp at h
      exact ⟨bc, rfl, h, by assumption⟩
  · simp at h

theorem emissionPlan_mkdir (pp : String → Nat → String) (solcBackend : Bool)
    (module : CompiledModule) (targets : List CompilationTarget) (output_dir : Path)
    (p : Path) (h : Op.mkdir p ∈ emissionPlan pp solcBackend module targets output_dir) :
    p = output_dir ∨ ∃ nc ∈ module.contracts, p = output_dir ++ [nc.1] := by
  simp only [emissionPlan, List.mem_cons, List.mem_append] at h
  rcases h with h | h | h | h
  · exact Or.inl (Op.mkdir.inj h)
  · cases (mem_ite_singleton h).1
  · cases (mem_ite_singleton h).1
  · obtain ⟨nc, hnc, hin⟩ := List.mem_flatMap.1 h
    simp only [contractPlan, List.mem_cons, List.mem_append] at hin
    rcases hin with hin | hin | hin | hin
    · exact Or.inr ⟨nc, hnc, (Op.mkdir.inj hin).symm ▸ rfl⟩
    · cases (mem_ite_singleton hin).1
    · cases (mem_ite_singleton hin).1
    · obtain ⟨bc, _, habs, _⟩ := mem_ite_match_singleton hin
      cases habs

theorem filterMap_split {α β : Type} (f : α → Option β) (l : List α)
    (pre : List β) (x : β) (post : List β) (h : l.filterMap f = pre ++ x :: post) :
    ∃ l₁ a l₂, l = l₁ ++ a :: l₂ ∧ f a = some x
      ∧ l₁.filterMap f = pre ∧ l₂.filterMap f = post := by
  induction l generalizing pre with
  | nil =>
    rw [List.filterMap_nil] at h
    exact absurd h.symm (by simp)
  | cons a l ih =>
    rw [List.filterMap_cons] at h
    cases hf : f a with
    | none =>
      rw [hf] at h
      obtain ⟨l₁, a', l₂, hl, hfa, hpre, hpost⟩ := ih pre h
      exact ⟨a :: l₁, a', l₂, by rw [hl]; rfl, hfa,
        by rw [List.filterMap_cons, hf, hpre], hpost⟩
    | some b =>
      rw [hf] at h
      cases pre with
      | nil =>
        simp only [List.nil_append] at h
        obtain ⟨hb, hl⟩ := List.cons.inj h
        exact ⟨[], a, l, rfl, by rw [hf, hb], rfl, hl⟩
      | cons p pre' =>
        simp only [List.cons_append] at h
        obtain ⟨hb, hl⟩ := List.cons.inj h
        obtain ⟨l₁, a', l₂, hleq, hfa, hpre, hpost⟩ := ih pre' hl
        exact ⟨a :: l₁, a', l₂, by rw [hleq]; rfl, hfa,
          by rw [List.filterMap_cons, hf, hpre, hb], hpost⟩

theorem mem_keys_contractArtifacts (pp : String → Nat → String) (solcBackend : Bool)
    (targets : List CompilationTarget) (output_dir : Path)
    (n : String) (c : CompiledContract) (q : Path) :
    q ∈ (contractArtifacts pp solcBackend targets output_dir n c).map Prod.fst
      ↔ ((CompilationTarget.Abi ∈ targets ∧ q = output_dir ++ [n, n ++ "_abi.json"])
        ∨ (CompilationTarget.Yul ∈ targets ∧ q = output_dir ++ [n, n ++ "_ir.yul"])
        ∨ (solcBackend = true ∧ CompilationTarget.Bytecode ∈ targets
            ∧ c.bytecode.isSome = true ∧ q = output_dir ++ [n, n ++ ".bin"])) := by
  unfold contractArtifacts
  by_cases hA : CompilationTarget.Abi ∈ targets <;>
    by_cases hY : CompilationTarget.Yul ∈ targets <;>
    cases solcBackend <;>
    by_cases hB : CompilationTarget.Bytecode ∈ targets <;>
    cases hbc : c.bytecode <;>
    simp [hA, hY, hB, hbc, List.elem_iff]

theorem mem_keys_ite_singleton (b : Prop) [Decidable b] (p : Path) (c : String) (q : Path) :
    q ∈ (if b then [(p, c)] else []).map Prod.fst ↔ (b ∧ q = p) := by
  split
  · next hb => simp [hb]
  · next hb => simp [hb]

theorem mem_keys_flatMap {α : Type} (f : α → List (Path × String)) (l : List α) (q : Path) :
    q ∈ (l.flatMap f).map Prod.fst ↔ ∃ a ∈ l, q ∈ (f a).map Prod.fst := by
  induction l with
  | nil => simp
  | cons a l ih => simp [List.flatMap_cons, List.map_append, ih]

theorem mem_keys_selectedArtifacts (pp : String → Nat → String) (solcBackend : Bool)
    (module : CompiledModule) (targets : List CompilationTarget) (output_dir : Path)
    (q : Path) :
    q ∈ (selectedArtifacts pp solcBackend module targets output_dir).map Prod.fst
      ↔ ((CompilationTarget.Ast ∈ targets ∧ q = output_dir ++ ["module.ast"])
        ∨ (CompilationTarget.Tokens ∈ targets ∧ q = output_dir ++ ["module.tokens"])
        ∨ (∃ nc ∈ module.contracts,
            q ∈ (contractArtifacts pp solcBackend targets output_dir nc.1 nc.2).map Prod.fst)) := by
  unfold selectedArtifacts
  simp only [List.map_append, List.mem_append, mem_keys_ite_singleton, mem_keys_flatMap]
  simp

theorem parseTargets_mem (t : CompilationTarget) (ns : List String)
    (ts : List CompilationTarget) (h : parseTargets ns = .ok ts) :
    t ∈ ts ↔ ∃ s ∈ ns, target_from_str s = .ok t := by
  induction ns generalizing ts with
  | nil =>
    simp only [parseTargets] at h
    cases h
    simp
  | cons s ns ih =>
    simp only [parseTargets] at h
    cases hf : target_from_str s with
    | error e =>
      rw [hf] at h
      cases h
    | ok t' =>
      rw [hf] at h
      cases hr : parseTargets ns with
      | error e =>
        rw [hr] at h
        cases h
      | ok ts' =>
        rw [hr] at h
        cases h
        constructor
        · intro ht
          rcases List.mem_cons.1 ht with rfl | ht'
          · exact ⟨s, by simp, hf⟩
          · obtain ⟨s', hs', hfs'⟩ := (ih ts' hr).1 ht'
            exact ⟨s', by simp [hs'], hfs'⟩
        · rintro ⟨s', hs', hfs'⟩
          rcases List.mem_cons.1 hs' with rfl | hs'
          · rw [hf] at hfs'
            cases hfs'
            exact List.mem_cons_self t ts'
          · exact List.mem_cons_of_mem t' ((ih ts' hr).2 ⟨s', hs', hfs'⟩)

/-- C2: the `optimize` boolean `main` passes to compilation equals the
presence of the `--overwrite` flag (src/main.rs line 79 reads
`matches.is_present("overwrite")`), so the `--optimize` flag itself has no
effect on the parsed arguments. -/
theorem optimize_equals_overwrite_presence (m : ArgMatches) (args : ParsedArgs)
    (h : parseArgs m = .ok args) :
    args.optimize = m.overwrite_present
    ∧ args.optimize = args.overwrite
    ∧ (∀ b : Bool, parseArgs { m with optimize_present := b } = parseArgs m) := by
  refine ⟨?_, ?_, fun b => rfl⟩ <;>
  · simp only [parseArgs] at h
    cases hp : parseTargets m.emit_values with
    | error e =>
      rw [hp] at h
      cases h
    | ok ts =>
      rw [hp] at h
      cases h
      rfl

/-- C3: with `overwrite = false` and a pre-existing non-empty destination
directory, `write_compiled_module` fails with the DestinationNotEmpty error
and returns the filesystem unchanged (no file or directory is created or
modified); and a destination that is empty or does not exist passes
`verify_nonexistent_or_empty`. -/
theorem nonempty_destination_without_overwrite_fails
    (ioerr : Path → Bool) (pp : String → Nat → String) (solcBackend : Bool)
    (module : CompiledModule) (targets : List CompilationTarget)
    (output_dir : Path) (fs : FS)
    (hfile : fs.isFile output_dir = false)
    (hex : fs.pathExists output_dir = true)
    (hne : fs.dirNonempty output_dir = true) :
    write_compiled_module ioerr pp solcBackend module targets output_dir false fs
      = (fs, some (.destinationNotEmpty output_dir))
    ∧ (∀ (fs' : FS) (d : Path),
        fs'.pathExists d = false ∨ fs'.dirNonempty d = false →
        verify_nonexistent_or_empty fs' d = none) := by
  constructor
  · unfold write_compiled_module
    rw [hfile]
    simp [verify_nonexistent_or_empty, hex, hne]
  · intro fs' d h
    unfold verify_nonexistent_or_empty
    rcases h with h | h <;> simp [h]

/-- C4: if the destination path is an existing regular file, emission fails
with the DestinationIsFile error for every module, target set and overwrite
flag — the check precedes all other guard checks and is fatal regardless of
overwrite. -/
theorem destination_file_always_fatal
    (ioerr : Path → Bool) (pp : String → Nat → String) (solcBackend : Bool)
    (module : CompiledModule) (targets : List CompilationTarget)
    (output_dir : Path) (overwrite : Bool) (fs : FS)
    (hfile : fs.isFile output_dir = true) :
    write_compiled_module ioerr pp solcBackend module targets output_dir overwrite fs
      = (fs, some (.destinationIsFile output_dir)) := by
  unfold write_compiled_module
  rw [hfile]
  simp

/-- C10: when emission fails because the destination is an existing regular
file, the filesystem is left entirely unchanged: no directory is created and
no file is opened or written. -/
theorem destination_file_failure_leaves_fs_unchanged
    (ioerr : Path → Bool) (pp : String → Nat → String) (solcBackend : Bool)
    (module : CompiledModule) (targets : List CompilationTarget)
    (output_dir : Path) (overwrite : Bool) (fs : FS)
    (hfile : fs.isFile output_dir = true) :
    (write_compiled_module ioerr pp solcBackend module targets output_dir overwrite fs).1.files
        = fs.files
    ∧ (write_compiled_module ioerr pp solcBackend module targets output_dir overwrite fs).1.dirs
        = fs.dirs := by
  unfold write_compiled_module
  rw [hfile]
  simp

/-- C8: target-set construction is idempotent under duplication (and
reordering): two valid name sequences with the same members parse to target
lists with the same members, so repeating a name (for example "abi") does not
change the resulting set. -/
theorem target_set_idempotent_under_duplication
    (ns₁ ns₂ : List String) (ts₁ ts₂ : List CompilationTarget)
    (hns : ∀ s, s ∈ ns₁ ↔ s ∈ ns₂)
    (h₁ : parseTargets ns₁ = .ok ts₁) (h₂ : parseTargets ns₂ = .ok ts₂) :
    ∀ t, t ∈ ts₁ ↔ t ∈ ts₂ := by
  intro t
  rw [parseTargets_mem t ns₁ ts₁ h₁, parseTargets_mem t ns₂ ts₂ h₂]
  constructor <;> rintro ⟨s, hs, hf⟩
  · exact ⟨s, (hns s).1 hs, hf⟩
  · exact ⟨s, (hns s).2 hs, hf⟩

/-- C9: `write_compiled_module` consults the target list only through
membership tests, so two target lists with the same members (differing in
order or duplication) produce identical results on every module, output
directory, overwrite flag and filesystem. -/
theorem emission_depends_only_on_target_membership
    (ioerr : Path → Bool) (pp : String → Nat → String) (solcBackend : Bool)
    (module : CompiledModule) (ts₁ ts₂ : List CompilationTarget)
    (output_dir : Path) (overwrite : Bool) (fs : FS)
    (h : ∀ t, t ∈ ts₁ ↔ t ∈ ts₂) :
    write_compiled_module ioerr pp solcBackend module ts₁ output_dir overwrite fs
      = write_compiled_module ioerr pp solcBackend module ts₂ output_dir overwrite fs := by
  have hc : ∀ t, ts₁.contains t = ts₂.contains t := by
    intro t
    by_cases hm : t ∈ ts₁
    · have e1 : ts₁.contains t = true := List.elem_iff.2 hm
      have e2 : ts₂.contains t = true := List.elem_iff.2 ((h t).1 hm)
      rw [e1, e2]
    · have e1 : ts₁.contains t = false :=
        Bool.eq_false_iff.2 (fun hct => hm (List.elem_iff.1 hct))
      have e2 : ts₂.contains t = false :=
        Bool.eq_false_iff.2 (fun hct => hm ((h t).2 (List.elem_iff.1 hct)))
      rw [e1, e2]
  have hplan : emissionPlan pp solcBackend module ts₁ output_dir
      = emissionPlan pp solcBackend module ts₂ output_dir := by
    simp only [emissionPlan, contractPlan, hc]
  have hE : ∀ fs' : FS, emitArtifacts ioerr pp solcBackend module ts₁ output_dir fs'
      = emitArtifacts ioerr pp solcBackend module ts₂ output_dir fs' := by
    intro fs'
    rw [emitArtifacts_eq_runOps, emitArtifacts_eq_runOps, hplan]
  unfold write_compiled_module
  simp only [hE]

/-- C5: on successful emission into a fresh destination, the files written
are exactly those selected by membership in the target set: `module.ast` with
the syntax representation iff Ast is requested, `module.tokens` iff Tokens
is, and per contract `<name>/<name>_abi.json` with the ABI body iff Abi is
and `<name>/<name>_ir.yul` with the pretty-printed intermediate
representation iff Yul is (see `selectedArtifacts`). -/
theorem successful_emission_writes_exactly_selected
    (ioerr : Path → Bool) (pp : String → Nat → String) (solcBackend : Bool)
    (module : CompiledModule) (targets : List CompilationTarget)
    (output_dir : Path) (overwrite : Bool) (hio : ∀ p, ioerr p = false) :
    (write_compiled_module ioerr pp solcBackend module targets output_dir overwrite FS.empty).2
        = none ∧
    (write_compiled_module ioerr pp solcBackend module targets output_dir overwrite FS.empty).1.files
        = (selectedArtifacts pp solcBackend module targets output_dir).reverse :=
  emit_empty_spec ioerr pp solcBackend module targets output_dir overwrite hio

/-- C6: with `overwrite = true` and a pre-existing non-empty destination
directory, the non-empty check is skipped (emission proceeds straight to the
artifact pipeline) and every existing file whose path is not one of the
emitted artifact paths keeps its content — the guard never purges existing
files. -/
theorem overwrite_skips_nonempty_check_and_preserves_unrelated
    (ioerr : Path → Bool) (pp : String → Nat → String) (solcBackend : Bool)
    (module : CompiledModule) (targets : List CompilationTarget)
    (output_dir : Path) (fs : FS)
    (hfile : fs.isFile output_dir = false)
    (_hex : fs.pathExists output_dir = true)
    (_hne : fs.dirNonempty output_dir = true) :
    write_compiled_module ioerr pp solcBackend module targets output_dir true fs
      = emitArtifacts ioerr pp solcBackend module targets output_dir fs
    ∧ ∀ q : Path,
        q ∉ (selectedArtifacts pp solcBackend module targets output_dir).map Prod.fst →
        (write_compiled_module ioerr pp solcBackend module targets output_dir true fs).1.files.lookup q
          = fs.files.lookup q := by
  have heq := write_compiled_module_not_file ioerr pp solcBackend module targets output_dir fs hfile
  refine ⟨heq, ?_⟩
  intro q hq
  rw [heq, emitArtifacts_eq_runOps]
  apply runOps_lookup_frame
  intro pc hpc hqe
  apply hq
  rw [← hqe]
  rw [opsWrites_emissionPlan] at hpc
  exact List.mem_map_of_mem Prod.fst hpc

/-- C1: emitting into a fresh destination with no I/O failure, the file
`<name>/<name>.bin` exists afterwards if and only if Bytecode is in the
target set, the solc-backend capability was compiled in, and the contract
carries a bytecode payload; when any condition fails (in particular an absent
bytecode payload) no `.bin` file exists for that contract and no error is
raised. -/
theorem bytecode_file_written_iff
    (ioerr : Path → Bool) (pp : String → Nat → String) (solcBackend : Bool)
    (module : CompiledModule) (targets : List CompilationTarget)
    (output_dir : Path) (overwrite : Bool)
    (hio : ∀ p, ioerr p = false)
    (hnodup : (module.contracts.map Prod.fst).Nodup)
    (name : String) (contract : CompiledContract)
    (hmem : (name, contract) ∈ module.contracts) :
    (write_compiled_module ioerr pp solcBackend module targets output_dir overwrite FS.empty).2
        = none ∧
    (((write_compiled_module ioerr pp solcBackend module targets output_dir overwrite
          FS.empty).1.files.lookup (output_dir ++ [name, name ++ ".bin"])).isSome = true
      ↔ (CompilationTarget.Bytecode ∈ targets ∧ solcBackend = true
          ∧ contract.bytecode.isSome = true)) := by
  obtain ⟨h2, h1⟩ :=
    emit_empty_spec ioerr pp solcBackend module targets output_dir overwrite hio
  refine ⟨h2, ?_⟩
  rw [h1, lookup_isSome_iff_mem_keys, List.map_reverse, List.mem_reverse,
    mem_keys_selectedArtifacts]
  constructor
  · rintro (⟨_, habs⟩ | ⟨_, habs⟩ | ⟨⟨n', c'⟩, hnc, hkey⟩)
    · exact absurd habs.symm (path_one_ne_two output_dir "module.ast" name (name ++ ".bin"))
    · exact absurd habs.symm (path_one_ne_two output_dir "module.tokens" name (name ++ ".bin"))
    · rw [mem_keys_contractArtifacts] at hkey
      rcases hkey with ⟨_, hq⟩ | ⟨_, hq⟩ | ⟨hsolc, hBt, hsome, hq⟩
      · obtain ⟨hn, hs⟩ :=
          path_two_inj output_dir name (name ++ ".bin") n' (n' ++ "_abi.json") hq
        subst hn
        exact absurd hs (string_append_ne name ".bin" "_abi.json" (by decide))
      · obtain ⟨hn, hs⟩ :=
          path_two_inj output_dir name (name ++ ".bin") n' (n' ++ "_ir.yul") hq
        subst hn
        exact absurd hs (string_append_ne name ".bin" "_ir.yul" (by decide))
      · obtain ⟨hn, _⟩ := path_two_inj output_dir name (name ++ ".bin") n' (n' ++ ".bin") hq
        subst hn
        have hcc : c' = contract :=
          eq_of_mem_nodup_keys module.contracts hnodup name c' contract hnc hmem
        rw [hcc] at hsome
        exact ⟨hBt, hsolc, hsome⟩
  · rintro ⟨hBt, hsolc, hsome⟩
    refine Or.inr (Or.inr ⟨(name, contract), hmem, ?_⟩)
    rw [mem_keys_contractArtifacts]
    exact Or.inr (Or.inr ⟨hsolc, hBt, hsome, rfl⟩)

/-- C7: provided directory creation itself does not fail, emission of a fresh
destination returns success exactly when no applicable artifact write fails;
on success every selected artifact is on disk; and the first failing write
aborts the whole operation immediately with that I/O error, leaving exactly
the artifacts written before the failure on disk (no rollback, no later
artifact written). -/
theorem emission_aborts_at_first_write_failure
    (ioerr : Path → Bool) (pp : String → Nat → String) (solcBackend : Bool)
    (module : CompiledModule) (targets : List CompilationTarget)
    (output_dir : Path) (overwrite : Bool)
    (hdir : ioerr output_dir = false)
    (hcdirs : ∀ nc ∈ module.contracts, ioerr (output_dir ++ [nc.1]) = false) :
    ((write_compiled_module ioerr pp solcBackend module targets output_dir overwrite
          FS.empty).2 = none
      ↔ ∀ pc ∈ selectedArtifacts pp solcBackend module targets output_dir,
          ioerr pc.1 = false)
    ∧ ((write_compiled_module ioerr pp solcBackend module targets output_dir overwrite
          FS.empty).2 = none →
        (write_compiled_module ioerr pp solcBackend module targets output_dir overwrite
            FS.empty).1.files
          = (selectedArtifacts pp solcBackend module targets output_dir).reverse)
    ∧ (∀ (pre : List (Path × String)) (p : Path) (c : String) (post : List (Path × String)),
        selectedArtifacts pp solcBackend module targets output_dir = pre ++ (p, c) :: post →
        (∀ qc ∈ pre, ioerr qc.1 = false) →
        ioerr p = true →
        (write_compiled_module ioerr pp solcBackend module targets output_dir overwrite
            FS.empty).2 = some (.ioFailure p)
        ∧ (write_compiled_module ioerr pp solcBackend module targets output_dir overwrite
            FS.empty).1.files = pre.reverse) := by
  refine ⟨?_, ?_, ?_⟩
  · rw [write_compiled_module_empty, runOps_snd_none_iff]
    constructor
    · intro h pc hpc
      rw [← opsWrites_emissionPlan pp solcBackend module targets output_dir] at hpc
      obtain ⟨op, hop, hw⟩ := List.mem_filterMap.1 hpc
      cases op with
      | mkdir pd => simp [Op.write?] at hw
      | fwrite pw cw =>
        simp only [Op.write?, Option.some.injEq] at hw
        rw [← hw]
        exact h (Op.fwrite pw cw) hop
    · intro h op hop
      cases op with
      | mkdir pd =>
        rcases emissionPlan_mkdir pp solcBackend module targets output_dir pd hop with
          rfl | ⟨nc, hnc, rfl⟩
        · exact hdir
        · exact hcdirs nc hnc
      | fwrite pw cw =>
        have hmem : (pw, cw) ∈ opsWrites (emissionPlan pp solcBackend module targets output_dir) :=
          List.mem_filterMap.2 ⟨Op.fwrite pw cw, hop, rfl⟩
        rw [opsWrites_emissionPlan] at hmem
        exact h (pw, cw) hmem
  · intro h
    rw [write_compiled_module_empty] at h ⊢
    rw [runOps_files_of_none ioerr FS.empty _ h, opsWrites_emissionPlan]
    simp [FS.empty]
  · intro pre p c post hsel hpre hfail
    have hw : opsWrites (emissionPlan pp solcBackend module targets output_dir)
        = pre ++ (p, c) :: post := by
      rw [opsWrites_emissionPlan]
      exact hsel
    obtain ⟨l₁, op₀, l₂, hplan, hop₀, hpre', hpost'⟩ :=
      filterMap_split Op.write? _ pre (p, c) post hw
    cases op₀ with
    | mkdir pd => simp [Op.write?] at hop₀
    | fwrite pw cw =>
      simp only [Op.write?, Option.some.injEq, Prod.mk.injEq] at hop₀
      obtain ⟨rfl, rfl⟩ := hop₀
      have hl₁ : ∀ op ∈ l₁, ioerr op.path = false := by
        intro op hop
        cases op with
        | mkdir pd =>
          have hmemp : Op.mkdir pd ∈ emissionPlan pp solcBackend module targets output_dir := by
            rw [hplan]
            exact List.mem_append.2 (Or.inl hop)
          rcases emissionPlan_mkdir pp solcBackend module targets output_dir pd hmemp with
            rfl | ⟨nc, hnc, rfl⟩
          · exact hdir
          · exact hcdirs nc hnc
        | fwrite pb cb =>
          have hmb : (pb, cb) ∈ List.filterMap Op.write? l₁ :=
            List.mem_filterMap.2 ⟨Op.fwrite pb cb, hop, rfl⟩
          rw [hpre'] at hmb
          exact hpre (pb, cb) hmb
      rw [write_compiled_module_empty, hplan,
        runOps_first_fail ioerr FS.empty l₁ l₂ (Op.fwrite pw cw) hl₁ hfail]
      refine ⟨rfl, ?_⟩
      have hsucc : (runOps ioerr FS.empty l₁).2 = none :=
        (runOps_snd_none_iff ioerr FS.empty l₁).2 hl₁
      rw [runOps_files_of_none ioerr FS.empty l₁ hsucc]
      have hwl : opsWrites l₁ = pre := hpre'
      rw [hwl]
      simp [FS.empty]

/-- A no-failure I/O oracle. -/
def ioerr0 : Path → Bool := fun _ => false

/-- A concrete pretty-printer instance. -/
def pp0 : String → Nat → String := fun s _ => s

/-- A concrete contract with a bytecode payload. -/
def contract0 : CompiledContract :=
  { json_abi := "[]", yul := "object", bytecode := some "6001" }

/-- A concrete one-contract module. -/
def module0 : CompiledModule :=
  { fe_ast := "ast", fe_tokens := "tokens", contracts := [("Token", contract0)] }

/-- A concrete output directory path. -/
def outdir0 : Path := ["output"]

/-- A filesystem whose output directory exists and is non-empty. -/
def fsNonempty : FS := ⟨[(["output", "old"], "x")], [["output"]]⟩

/-- A filesystem with a regular file at the output path. -/
def fsFileAtDest : FS := ⟨[(["output"], "data")], []⟩

/-- Concrete argument matches: `--overwrite` given, `--optimize` not. -/
def margs0 : ArgMatches :=
  { input := "erc20.fe", output_dir := "output", overwrite_present := true
    optimize_present := false, emit_values := ["abi", "bytecode"] }

/-- The parse of `margs0`. -/
def args0 : ParsedArgs :=
  { input := "erc20.fe", output_dir := "output", overwrite := true
    optimize := true, targets := [.Abi, .Bytecode] }

/-- An oracle failing exactly at the Token ABI artifact path. -/
def ioerrAbiFail : Path → Bool := fun p => p == ["output", "Token", "Token_abi.json"]

theorem optimize_equals_overwrite_presence_witness :
    args0.optimize = margs0.overwrite_present
    ∧ args0.optimize = args0.overwrite
    ∧ parseArgs { margs0 with optimize_present := true } = parseArgs margs0 :=
  ⟨(optimize_equals_overwrite_presence margs0 args0 rfl).1,
   (optimize_equals_overwrite_presence margs0 args0 rfl).2.1,
   (optimize_equals_overwrite_presence margs0 args0 rfl).2.2 true⟩

theorem nonempty_destination_without_overwrite_fails_witness :
    write_compiled_module ioerr0 pp0 true module0 [.Abi] outdir0 false fsNonempty
      = (fsNonempty, some (.destinationNotEmpty outdir0))
    ∧ verify_nonexistent_or_empty FS.empty ["nowhere"] = none :=
  ⟨(nonempty_destination_without_overwrite_fails ioerr0 pp0 true module0 [.Abi] outdir0
      fsNonempty (by decide) (by decide) (by decide)).1,
   (nonempty_destination_without_overwrite_fails ioerr0 pp0 true module0 [.Abi] outdir0
      fsNonempty (by decide) (by decide) (by decide)).2 FS.empty ["nowhere"]
      (Or.inl (by decide))⟩

theorem destination_file_always_fatal_witness :
    write_compiled_module ioerr0 pp0 true module0 [.Abi] ["output"] true fsFileAtDest
      = (fsFileAtDest, some (.destinationIsFile ["output"])) :=
  destination_file_always_fatal ioerr0 pp0 true module0 [.Abi] ["output"] true fsFileAtDest
    (by decide)

theorem destination_file_failure_leaves_fs_unchanged_witness :
    (write_compiled_module ioerr0 pp0 true module0 [.Abi] ["output"] false fsFileAtDest).1.files
        = fsFileAtDest.files
    ∧ (write_compiled_module ioerr0 pp0 true module0 [.Abi] ["output"] false fsFileAtDest).1.dirs
        = fsFileAtDest.dirs :=
  destination_file_failure_leaves_fs_unchanged ioerr0 pp0 true module0 [.Abi] ["output"] false
    fsFileAtDest (by decide)

theorem target_set_idempotent_under_duplication_witness :
    CompilationTarget.Abi ∈ ([.Abi, .Abi] : List CompilationTarget)
      ↔ CompilationTarget.Abi ∈ ([.Abi] : List CompilationTarget) :=
  target_set_idempotent_under_duplication ["abi", "abi"] ["abi"] [.Abi, .Abi] [.Abi]
    (fun s => by simp) rfl rfl .Abi

theorem emission_depends_only_on_target_membership_witness :
    write_compiled_module ioerr0 pp0 true module0 [.Abi, .Bytecode, .Abi] outdir0 true FS.empty
      = write_compiled_module ioerr0 pp0 true module0 [.Bytecode, .Abi] outdir0 true FS.empty :=
  emission_depends_only_on_target_membership ioerr0 pp0 true module0
    [.Abi, .Bytecode, .Abi] [.Bytecode, .Abi] outdir0 true FS.empty
    (fun t => by cases t <;> decide)

theorem successful_emission_writes_exactly_selected_witness :
    (write_compiled_module ioerr0 pp0 true module0 [.Abi, .Yul] outdir0 false FS.empty).2
        = none
    ∧ (write_compiled_module ioerr0 pp0 true module0 [.Abi, .Yul] outdir0 false
          FS.empty).1.files
        = (selectedArtifacts pp0 true module0 [.Abi, .Yul] outdir0).reverse :=
  successful_emission_writes_exactly_selected ioerr0 pp0 true module0 [.Abi, .Yul] outdir0
    false (fun _ => rfl)

theorem overwrite_skips_nonempty_check_and_preserves_unrelated_witness :
    write_compiled_module ioerr0 pp0 true module0 [.Abi] outdir0 true fsNonempty
      = emitArtifacts ioerr0 pp0 true module0 [.Abi] outdir0 fsNonempty
    ∧ (write_compiled_module ioerr0 pp0 true module0 [.Abi] outdir0 true
          fsNonempty).1.files.lookup ["output", "old"]
        = fsNonempty.files.lookup ["output", "old"] :=
  ⟨(overwrite_skips_nonempty_check_and_preserves_unrelated ioerr0 pp0 true module0 [.Abi]
      outdir0 fsNonempty (by decide) (by decide) (by decide)).1,
   (overwrite_skips_nonempty_check_and_preserves_unrelated ioerr0 pp0 true module0 [.Abi]
      outdir0 fsNonempty (by decide) (by decide) (by decide)).2 ["output", "old"] (by decide)⟩

theorem bytecode_file_written_iff_witness :
    (write_compiled_module ioerr0 pp0 true module0 [.Abi, .Bytecode] outdir0 false
        FS.empty).2 = none
    ∧ (((write_compiled_module ioerr0 pp0 true module0 [.Abi, .Bytecode] outdir0 false
          FS.empty).1.files.lookup (outdir0 ++ ["Token", "Token" ++ ".bin"])).isSome = true
        ↔ (CompilationTarget.Bytecode ∈ ([.Abi, .Bytecode] : List CompilationTarget)
            ∧ true = true ∧ contract0.bytecode.isSome = true)) :=
  bytecode_file_written_iff ioerr0 pp0 true module0 [.Abi, .Bytecode] outdir0 false
    (fun _ => rfl) (by decide) "Token" contract0 (by decide)

theorem emission_aborts_at_first_write_failure_witness :
    (write_compiled_module ioerrAbiFail pp0 true module0 [.Abi, .Yul] outdir0 false
        FS.empty).2 = some (.ioFailure ["output", "Token", "Token_abi.json"])
    ∧ (write_compiled_module ioerrAbiFail pp0 true module0 [.Abi, .Yul] outdir0 false
        FS.empty).1.files = ([] : List (Path × String)).reverse :=
  (emission_aborts_at_first_write_failure ioerrAbiFail pp0 true module0 [.Abi, .Yul] outdir0
      false (by decide) (by decide)).2.2
    [] ["output", "Token", "Token_abi.json"] "[]"
    [(["output", "Token", "Token_ir.yul"], "object")]
    (by decide) (by decide) (by decide)

end Fe
